import Mathlib

/-!
Verification of the skycluster-cli readiness-wait engine and secret-propagation
controller, as a shallow embedding of the Go sources:

* internal/utils/watch.go   — condition evaluator, name resolver, readiness waiter
* internal/utils/utils.go   — GetConditionStatus helper
* cmd/xkube/controller.go   — propagation controller (watch loop, deployed matrix)

Kubernetes "unstructured" objects are modelled by a JSON-like value type;
the dynamic client, the watch stream and the remote apply operation are
modelled as explicit oracles / event lists, so every function here is a
computable translation of the corresponding Go function.
-/

namespace SkyCluster

/-- JSON-like value, modelling the interface-typed values inside an
unstructured Kubernetes object (map[string]interface{}). Non-string,
non-map, non-slice leaves are collapsed to .other: the embedded code only
ever inspects strings, maps and slices. -/
inductive JVal where
  | str (s : String)
  | arr (items : List JVal)
  | map (fields : List (String × JVal))
  | other
deriving Inhabited

/-- An unstructured object body (map[string]interface{}); association list
with lookup on the first matching key (Go maps have unique keys). -/
abbrev JObj := List (String × JVal)

def lookupField : JObj → String → Option JVal
  | [], _ => none
  | (k, v) :: rest, key => if k = key then some v else lookupField rest key

def JVal.asStr : JVal → Option String
  | .str s => some s
  | _ => none

def JVal.asMap : JVal → Option JObj
  | .map f => some f
  | _ => none

def JVal.asArr : JVal → Option (List JVal)
  | .arr xs => some xs
  | _ => none

/-- Traversal underlying unstructured.NestedFieldNoCopy: walk a path of keys
through nested maps. Absence and a type mismatch both yield none, matching
how every call site in the sources treats (found=false) and (err != nil)
identically. -/
def nestedVal (obj : JObj) : List String → Option JVal
  | [] => some (.map obj)
  | [k] => lookupField obj k
  | k :: k2 :: rest =>
    match (lookupField obj k).bind JVal.asMap with
    | some m => nestedVal m (k2 :: rest)
    | none => none

/-- unstructured.NestedString, with found/err collapsed into Option. -/
def nestedString (obj : JObj) (path : List String) : Option String :=
  (nestedVal obj path).bind JVal.asStr

/-- unstructured.NestedString where the caller ignores found/err
(the sources write: name, _, _ := NestedString(...)), defaulting to "". -/
def nestedStringD (obj : JObj) (path : List String) : String :=
  (nestedString obj path).getD ""

/-- unstructured.NestedSlice (found/err collapsed into Option). -/
def nestedSlice (obj : JObj) (path : List String) : Option (List JVal) :=
  (nestedVal obj path).bind JVal.asArr

/-- unstructured.NestedMap (found/err collapsed into Option). -/
def nestedMap (obj : JObj) (path : List String) : Option JObj :=
  (nestedVal obj path).bind JVal.asMap

/-! ### Condition Evaluator (internal/utils/watch.go) -/

/-- watch.go stringsEqualFoldTrue: len(s) == 4 && (s == "True" || s == "TRUE" || s == "true"). -/
def stringsEqualFoldTrue (s : String) : Bool :=
  s.length == 4 && (s == "True" || s == "TRUE" || s == "true")

/-- One iteration of the loop body of isConditionTrue in watch.go: a
condition entry matches when it is a map whose "type" equals condType and
whose "status" satisfies stringsEqualFoldTrue (NestedString defaults to ""
for missing or non-string fields, as at the call site). -/
def condEntryTrue (condType : String) (c : JVal) : Bool :=
  match c.asMap with
  | none => false
  | some m =>
    let t := ((lookupField m "type").bind JVal.asStr).getD ""
    let s := ((lookupField m "status").bind JVal.asStr).getD ""
    t == condType && stringsEqualFoldTrue s

/-- watch.go isConditionTrue: nil check, NestedMap(obj, "status"),
NestedSlice(status, "conditions"), then scan the entries. A nil
*unstructured.Unstructured is modelled as none. -/
def isConditionTrue (obj : Option JObj) (condType : String) : Bool :=
  match obj with
  | none => false
  | some o =>
    match nestedMap o ["status"] with
    | none => false
    | some status =>
      match nestedSlice status ["conditions"] with
      | none => false
      | some conds => conds.any (condEntryTrue condType)

/-- watch.go IsConditionTrue — the exported wrapper around isConditionTrue. -/
def IsConditionTrue (obj : Option JObj) (condType : String) : Bool :=
  isConditionTrue obj condType

/-- watch.go coalesce. -/
def coalesce (s fallback : String) : String :=
  if s = "" then fallback else s

/-! ### GetConditionStatus (internal/utils/utils.go) -/

/-- Loop body of GetConditionStatus: returns the "status" string of the
first entry that is a map, whose "type" asserts to a string equal to
condType, and whose "status" asserts to a string; every other entry is
skipped; "" when no entry qualifies. -/
def getCondStatusLoop (condType : String) : List JVal → String
  | [] => ""
  | c :: rest =>
    match c.asMap with
    | none => getCondStatusLoop condType rest
    | some m =>
      match (lookupField m "type").bind JVal.asStr with
      | none => getCondStatusLoop condType rest
      | some t =>
        if t = condType then
          match (lookupField m "status").bind JVal.asStr with
          | none => getCondStatusLoop condType rest
          | some s => s
        else getCondStatusLoop condType rest

/-- utils.go GetConditionStatus: NestedSlice(obj, "status", "conditions")
and scan; "" when the slice is absent. -/
def GetConditionStatus (obj : JObj) (condType : String) : String :=
  match nestedSlice obj ["status", "conditions"] with
  | none => ""
  | some arr => getCondStatusLoop condType arr

/-- cmd/xkube/controller.go line 141: the Propagation Controller classifies
an event object as ready via GetConditionStatus(obj, "Ready") == "True". -/
def controllerIsReady (obj : JObj) : Bool :=
  GetConditionStatus obj "Ready" == "True"

/-- Modelled from the spec wording of claim C2 (refinement comparand, not
from the source): a condition's status counts as true when it
case-insensitively equals "true" (character-wise lowercase comparison,
i.e. strings.EqualFold on ASCII). -/
def specStatusTrue (s : String) : Bool :=
  s.data.map Char.toLower == "true".data

/-- Modelled from the spec wording of claim C2 (refinement comparand, not
from the source): condition entry match with case-insensitive status. -/
def specCondEntryTrue (condType : String) (c : JVal) : Bool :=
  match c.asMap with
  | none => false
  | some m =>
    let t := ((lookupField m "type").bind JVal.asStr).getD ""
    let s := ((lookupField m "status").bind JVal.asStr).getD ""
    t == condType && specStatusTrue s

/-- Modelled from the spec wording of claim C2 (refinement comparand, not
from the source): IsConditionTrue with a fully case-insensitive status test. -/
def specIsConditionTrue (obj : Option JObj) (condType : String) : Bool :=
  match obj with
  | none => false
  | some o =>
    match nestedMap o ["status"] with
    | none => false
    | some status =>
      match nestedSlice status ["conditions"] with
      | none => false
      | some conds => conds.any (specCondEntryTrue condType)

/-- The status.conditions entries an object exposes to the evaluator
(composite of the NestedMap/NestedSlice extraction in isConditionTrue). -/
def condsOf (o : JObj) : Option (List JVal) :=
  (nestedMap o ["status"]).bind (fun status => nestedSlice status ["conditions"])

/-! ### Name Resolver (internal/utils/watch.go) -/

/-- schema.GroupVersionResource. -/
structure GroupVersionResource where
  group : String
  version : String
  resource : String
deriving DecidableEq, Repr, Inhabited

/-- watch.go WaitResourceSpec. time.Duration fields are modelled as Int
(nanosecond counts); only their sign and finiteness matter here. -/
structure WaitResourceSpec where
  KindDescription : String
  GVR : GroupVersionResource
  Namespace : String
  Name : String
  ManifestMetadataName : String
  ConditionType : String
  Timeout : Int
  PollInterval : Int
deriving DecidableEq, Repr, Inhabited

/-- watch.go extractManifestName: the fixed lookup table mapping a GVR
resource string to the structured path of the manifest name; unknown
resource strings are a hard error (the Go error text is
"unsupported GVR resource <r> for resolving manifest name"). -/
def extractManifestName (obj : JObj) (resource : String) : Except String String :=
  if resource = "objects" then
    .ok (nestedStringD obj ["spec", "forProvider", "manifest", "metadata", "name"])
  else if resource = "releases" then
    .ok (nestedStringD obj ["spec", "forProvider", "chart", "name"])
  else if resource = "instancetypes" ∨ resource = "images" then
    .ok (nestedStringD obj ["metadata", "generateName"])
  else
    .error ("unsupported GVR resource " ++ resource ++ " for resolving manifest name")

/-- The resource strings extractManifestName supports. -/
def supportedResource (resource : String) : Prop :=
  resource = "objects" ∨ resource = "releases" ∨
    resource = "instancetypes" ∨ resource = "images"

instance (resource : String) : Decidable (supportedResource resource) := by
  unfold supportedResource; infer_instance

/-- The total extraction a supported resource string performs (the value
extractManifestName returns wrapped in .ok). -/
def fingerprintOf (obj : JObj) (resource : String) : String :=
  if resource = "objects" then
    nestedStringD obj ["spec", "forProvider", "manifest", "metadata", "name"]
  else if resource = "releases" then
    nestedStringD obj ["spec", "forProvider", "chart", "name"]
  else
    nestedStringD obj ["metadata", "generateName"]

/-- item.GetName() on an unstructured object. -/
def itemGetName (obj : JObj) : String :=
  nestedStringD obj ["metadata", "name"]

/-- The inner scan of ResolveResourceNamesFromManifest: walk the listed
items in order, propagate an extraction error, and on the first item whose
extracted manifest name equals the wanted fingerprint return that item's
name (break); "" when no item matches (Go initialises foundName := ""). -/
def findManifestMatch (resource fp : String) : List JObj → Except String String
  | [] => .ok ""
  | item :: rest =>
    match extractManifestName item resource with
    | .error e => .error e
    | .ok mn => if mn = fp then .ok (itemGetName item) else findManifestMatch resource fp rest

/-- The errors ResolveResourceNamesFromManifest returns; each constructor
carries exactly the data of the corresponding fmt.Errorf format:
listing:          "listing <resource> for <kindDescription>: <inner>"
extract:          "extract manifest name for <kindDescription>: <inner>"
couldNotResolve:  "could not resolve object name for <kindDescription>
                   (GVR=<resource>, ns=<namespace>, manifest name=<fp>)". -/
inductive ResolveErr where
  | listing (resource kindDescription inner : String)
  | extract (kindDescription inner : String)
  | couldNotResolve (kindDescription resource ns fp : String)
deriving DecidableEq, Repr

/-- The dynamic client's List call, abstracted: a lister receives the GVR
and the namespace ("" = cluster scope, matching the two call forms in the
Go code) and returns the listed items or an error. -/
abbrev Lister := GroupVersionResource → String → Except String (List JObj)

/-- One iteration of the loop of ResolveResourceNamesFromManifest for a
single descriptor: skip when Name is set or ManifestMetadataName is empty;
otherwise list, scan, and either fill Name or fail. -/
def resolveOne (lister : Lister) (spec : WaitResourceSpec) : Except ResolveErr WaitResourceSpec :=
  if spec.Name ≠ "" ∨ spec.ManifestMetadataName = "" then .ok spec
  else
    match lister spec.GVR spec.Namespace with
    | .error e => .error (.listing spec.GVR.resource spec.KindDescription e)
    | .ok items =>
      match findManifestMatch spec.GVR.resource spec.ManifestMetadataName items with
      | .error e => .error (.extract spec.KindDescription e)
      | .ok foundName =>
        if foundName = "" then
          .error (.couldNotResolve spec.KindDescription spec.GVR.resource
            spec.Namespace spec.ManifestMetadataName)
        else .ok { spec with Name := foundName }

/-- watch.go ResolveResourceNamesFromManifest. The Go function mutates the
descriptor slice in place and returns an error; the embedding returns the
final state of the slice together with the optional error, so that the
slice's state at an early error return is visible: descriptors at and
after the failing one are returned unchanged. -/
def ResolveResourceNamesFromManifest (lister : Lister) :
    List WaitResourceSpec → List WaitResourceSpec × Option ResolveErr
  | [] => ([], none)
  | spec :: rest =>
    match resolveOne lister spec with
    | .error e => (spec :: rest, some e)
    | .ok spec' =>
      let (rest', err) := ResolveResourceNamesFromManifest lister rest
      (spec' :: rest', err)

/-! ### Readiness Waiter, sequential driver (internal/utils/watch.go) -/

/-- watch.go ProgressEvent. OverallPercent (float64 in Go, an exact
quotient of small integers there) is modelled as a rational. -/
structure SeqEvent where
  Message : String
  CurrentIndex : Nat
  Total : Nat
  OverallPercent : ℚ
  KindDescription : String
  Namespace : String
  Name : String
  GVR : GroupVersionResource
  ResourceCompleted : Bool
  Err : Option String
deriving DecidableEq, Repr

/-- The error WaitForResourcesReadySequential returns, carrying exactly
the data of fmt.Errorf("resource %s (%s %s/%s) did not become %s=True: %w",
kindDescription, resource, namespace, name, conditionType, inner). -/
structure SeqErr where
  KindDescription : String
  Resource : String
  Namespace : String
  Name : String
  ConditionType : String
  Inner : String
deriving DecidableEq, Repr

/-- Builds the wrapper error of WaitForResourcesReadySequential from the
failing descriptor and the inner wait error, mirroring the fmt.Errorf
argument list. -/
def mkSeqErr (spec : WaitResourceSpec) (e : String) : SeqErr :=
  ⟨spec.KindDescription, spec.GVR.resource, coalesce spec.Namespace "<cluster-scope>",
    spec.Name, spec.ConditionType, e⟩

/-- The loop of WaitForResourcesReadySequential. The per-descriptor wait
(waitForSingleResourceReady under a per-resource timeout context) is
abstracted as an oracle giving descriptor i's outcome (none = became
ready, some e = timeout/cancellation error). Returns the emitted progress
events, the indices of the descriptors actually attempted (in order), and
the returned error, if any. -/
def waitLoop (waitFor : Nat → Option String) (total : Nat) :
    Nat → Nat → List WaitResourceSpec → List SeqEvent × List Nat × Option SeqErr
  | _, _, [] => ([], [], none)
  | i, completed, spec :: rest =>
    let index := i + 1
    let overallPercent : ℚ := (completed : ℚ) / (total : ℚ) * 100
    let ev0 : SeqEvent :=
      { Message := "Waiting for " ++ spec.KindDescription
        CurrentIndex := index
        Total := total
        OverallPercent := overallPercent
        KindDescription := spec.KindDescription
        Namespace := coalesce spec.Namespace "<cluster-scope>"
        Name := spec.Name
        GVR := spec.GVR
        ResourceCompleted := false
        Err := none }
    match waitFor i with
    | some e =>
      let evErr : SeqEvent :=
        { ev0 with Message := "Error waiting for " ++ spec.KindDescription, Err := some e }
      ([ev0, evErr], [i], some (mkSeqErr spec e))
    | none =>
      let overallPercent2 : ℚ := ((completed + 1 : Nat) : ℚ) / (total : ℚ) * 100
      let evDone : SeqEvent :=
        { ev0 with Message := spec.KindDescription ++ " is Ready"
                   OverallPercent := overallPercent2
                   ResourceCompleted := true }
      let r := waitLoop waitFor total (i + 1) (completed + 1) rest
      (ev0 :: evDone :: r.1, i :: r.2.1, r.2.2)

/-- watch.go WaitForResourcesReadySequential (empty input returns
immediately with no events; total/completed initialised to len/0). -/
def WaitForResourcesReadySequential (waitFor : Nat → Option String)
    (resources : List WaitResourceSpec) : List SeqEvent × List Nat × Option SeqErr :=
  if resources.isEmpty then ([], [], none)
  else waitLoop waitFor resources.length 0 0 resources

/-- Number of events in a list that report a resource as just completed. -/
def countCompleted (evs : List SeqEvent) : Nat :=
  (evs.filter (fun ev => ev.ResourceCompleted)).length

/-! ### Single-resource waiter (internal/utils/watch.go waitForSingleResourceReady) -/

/-- Outcome of one GET of the resource: not found, some other read error,
or the object's current body. -/
inductive ReadResult where
  | notFound
  | getErr (e : String)
  | found (o : JObj)

/-- The error of waitForSingleResourceReady's ctx.Done branch, carrying
exactly the data of fmt.Errorf("timeout or context cancelled while
waiting for %s %s/%s %s condition %s=True: %w", ...). -/
structure SingleErr where
  KindDescription : String
  Namespace : String
  Name : String
  Resource : String
  ConditionType : String
deriving DecidableEq, Repr

/-- The result of running waitForSingleResourceReady: a normal return
(nil, error) or a runtime panic. -/
inductive SingleOutcome where
  | success
  | timeoutErr (e : SingleErr)
  | panicked
deriving DecidableEq, Repr

/-- Whether the first immediate GET already satisfies the condition
(the success branch of the initial GET in waitForSingleResourceReady). -/
def firstReadReady (spec : WaitResourceSpec) (r : ReadResult) : Bool :=
  match r with
  | .found o => isConditionTrue (some o) spec.ConditionType
  | _ => false

/-- The select loop of waitForSingleResourceReady. The reads delivered at
successive ticker ticks before the context deadline fires are given as a
list; when it is exhausted the ctx.Done branch runs (the context always
carries a deadline: the caller wraps it in context.WithTimeout). Not-found
and read errors are logged and skipped; a found object returns success
when its condition is true. -/
def pollLoop (spec : WaitResourceSpec) : List ReadResult → SingleOutcome
  | [] =>
    .timeoutErr ⟨spec.KindDescription, coalesce spec.Namespace "<cluster-scope>",
      spec.Name, spec.GVR.resource, spec.ConditionType⟩
  | r :: rest =>
    match r with
    | .notFound => pollLoop spec rest
    | .getErr _ => pollLoop spec rest
    | .found o =>
      if isConditionTrue (some o) spec.ConditionType then .success else pollLoop spec rest

/-- watch.go waitForSingleResourceReady: one immediate GET (success
returns nil at once), then time.NewTicker(spec.PollInterval) — which, per
the Go standard library, panics when the duration is not positive — then
the poll loop. firstRead is the immediate GET's result, polls the results
of the ticker-driven GETs before the deadline. -/
def waitForSingleResourceReady (spec : WaitResourceSpec) (firstRead : ReadResult)
    (polls : List ReadResult) : SingleOutcome :=
  if firstReadReady spec firstRead then .success
  else if spec.PollInterval ≤ 0 then .panicked
  else pollLoop spec polls

/-! ### Propagation Controller event loop (cmd/xkube/controller.go Run) -/

/-- A watch event as the loop consumes it, after the nil/type guards:
the object's namespace/name key and its evaluated readiness
(utils.GetConditionStatus(obj, "Ready") == "True"). -/
structure XkubeEvent where
  key : String
  isReady : Bool
deriving DecidableEq, Repr

/-- The loop-local state of Run: the readyMap, the ready counter (a Go
int), and whether the loop has cancelled its child context. -/
structure CtrlState where
  readyMap : List (String × Bool)
  ready : Int
  cancelled : Bool
deriving DecidableEq, Repr

/-- Go map lookup readyMap[key] (prev, exists). -/
def lookupKey : List (String × Bool) → String → Option Bool
  | [], _ => none
  | (k, v) :: rest, key => if k = key then some v else lookupKey rest key

/-- Go map assignment readyMap[key] = b. -/
def setKey : List (String × Bool) → String → Bool → List (String × Bool)
  | [], key, b => [(key, b)]
  | (k, v) :: rest, key, b =>
    if k = key then (key, b) :: rest else (k, v) :: setKey rest key b

/-- The body of the watch event loop in Run for one delivered event
(controller.go lines 140-179): update readyMap and the ready counter
(new entry, or flip of an existing entry), call handleReadyXkube iff the
event's object is currently Ready, then cancel the child context when
total > 0 and ready == total. Returns the new state and whether the
handler was called. -/
def stepEvent (total : Nat) (s : CtrlState) (e : XkubeEvent) : CtrlState × Bool :=
  let updated : List (String × Bool) × Int :=
    match lookupKey s.readyMap e.key with
    | none =>
      (setKey s.readyMap e.key e.isReady, if e.isReady then s.ready + 1 else s.ready)
    | some prev =>
      if prev ≠ e.isReady then
        (setKey s.readyMap e.key e.isReady, if e.isReady then s.ready + 1 else s.ready - 1)
      else (s.readyMap, s.ready)
  let handlerCalled := e.isReady
  let cancelledNow := decide (0 < total) && (updated.2 == (total : Int))
  ({ readyMap := updated.1, ready := updated.2, cancelled := cancelledNow }, handlerCalled)

/-- Run's event-loop goroutine over a finite stream of delivered events:
process events in order, stopping (returning) as soon as the child context
has been cancelled. Also returns the keys for which handleReadyXkube was
invoked, in order. -/
def runEvents (total : Nat) : CtrlState → List XkubeEvent → CtrlState × List String
  | s, [] => (s, [])
  | s, e :: rest =>
    if s.cancelled then (s, [])
    else
      let step := stepEvent total s e
      let tail := runEvents total step.1 rest
      (tail.1, (if step.2 then [e.key] else []) ++ tail.2)

/-- The loop state Run starts from: empty readyMap, ready = 0, child
context live. -/
def initState : CtrlState := ⟨[], 0, false⟩

/-- Number of keys currently recorded as ready in the readyMap. -/
def countReady (m : List (String × Bool)) : Nat :=
  (m.filter (fun kv => kv.2)).length

/-! ### Secret propagation (cmd/xkube/controller.go handleReadyXkube / DeployedMatrix) -/

/-- A listed secret, reduced to the fields the propagation loop reads: its
namespace/name and the "skycluster.io/cluster-name" label value. -/
structure Secret where
  Namespace : String
  Name : String
  sourceLabel : String
deriving DecidableEq, Repr, Inhabited

/-- The DeployedMatrix deployed[source][target]; the nested
map[string]map[string]bool is modelled as the list of pairs currently set
to true. -/
abbrev Deployed := List (String × String)

/-- controller.go isDeployed: deployed[source][target] (a missing inner
map or key reads as false, i.e. the pair is not in the set). -/
def isDeployed (d : Deployed) (source target : String) : Bool :=
  decide ((source, target) ∈ d)

/-- controller.go markDeployed. -/
def markDeployed (d : Deployed) (source target : String) : Deployed :=
  (source, target) :: d

/-- The secret loop of handleReadyXkube (controller.go lines 230-252) for
one target cluster: skip secrets with an empty source label or whose
source equals the target, skip pairs already marked in the DeployedMatrix,
otherwise perform the remote apply (abstracted as the applyOk oracle) and
mark the pair deployed only when the apply succeeded; an apply error is
logged and the loop continues. Returns the final matrix and the apply
calls performed, as (sourceLabel, secret) pairs in order. -/
def propagateSecrets (applyOk : Secret → Bool) (target : String) :
    Deployed → List Secret → Deployed × List (String × Secret)
  | d, [] => (d, [])
  | d, secret :: rest =>
    if secret.sourceLabel = "" ∨ secret.sourceLabel = target then
      propagateSecrets applyOk target d rest
    else if isDeployed d secret.sourceLabel target then
      propagateSecrets applyOk target d rest
    else if applyOk secret then
      ((propagateSecrets applyOk target (markDeployed d secret.sourceLabel target) rest).1,
        (secret.sourceLabel, secret) ::
          (propagateSecrets applyOk target (markDeployed d secret.sourceLabel target) rest).2)
    else
      ((propagateSecrets applyOk target d rest).1,
        (secret.sourceLabel, secret) :: (propagateSecrets applyOk target d rest).2)

/-- The loop invariant of Run's event goroutine: the ready counter equals
the number of keys recorded ready, and the child context has been
cancelled exactly when total > 0 and the counter has reached total. -/
def CtrlInv (total : Nat) (s : CtrlState) : Prop :=
  s.ready = (countReady s.readyMap : Int) ∧
    (s.cancelled = true ↔ 0 < total ∧ countReady s.readyMap = total)

/-! ### Sample inputs used by witnesses and counterexamples -/

/-- A resolvable descriptor: empty Name, fingerprint "x1", images GVR. -/
def specNeedsResolve : WaitResourceSpec :=
  ⟨"A", ⟨"g", "v", "images"⟩, "", "", "x1", "Ready", 1000, 10⟩

/-- A descriptor whose Name is already set (the resolver skips it). -/
def specAlreadyNamed : WaitResourceSpec :=
  ⟨"A", ⟨"g", "v", "objects"⟩, "ns", "done", "fp", "Ready", 1000, 10⟩

/-- A descriptor with a non-positive poll interval. -/
def specPoll0 : WaitResourceSpec :=
  { specNeedsResolve with PollInterval := 0 }

/-- A listed item with metadata.name "obj-A" and generateName "x1". -/
def itemObjA : JObj :=
  [("metadata", JVal.map [("name", JVal.str "obj-A"), ("generateName", JVal.str "x1")])]

/-- A lister returning the single item itemObjA. -/
def listerOne : Lister := fun _ _ => Except.ok [itemObjA]

/-- A lister returning an empty listing. -/
def listerNil : Lister := fun _ _ => Except.ok []

/-- Three descriptors for exercising the sequential waiter. -/
def sampleSpecs : List WaitResourceSpec :=
  [specNeedsResolve, { specNeedsResolve with KindDescription := "B" },
    { specNeedsResolve with KindDescription := "C" }]

/-- A wait oracle that fails on the second descriptor only. -/
def failAtSecond : Nat → Option String :=
  fun i => if i = 1 then some "boom" else none

/-- An object whose Ready condition has status "TRUE". -/
def objStatusTRUE : JObj :=
  [("status", JVal.map [("conditions",
    JVal.arr [JVal.map [("type", JVal.str "Ready"), ("status", JVal.str "TRUE")]])])]

/-- An object whose Ready condition has status "tRue". -/
def objStatustRue : JObj :=
  [("status", JVal.map [("conditions",
    JVal.arr [JVal.map [("type", JVal.str "Ready"), ("status", JVal.str "tRue")]])])]

/-- An object whose Ready condition has status "True". -/
def objStatusTrue : JObj :=
  [("status", JVal.map [("conditions",
    JVal.arr [JVal.map [("type", JVal.str "Ready"), ("status", JVal.str "True")]])])]

/-! ### Helper lemmas -/

theorem stringsEqualFoldTrue_iff (s : String) :
    stringsEqualFoldTrue s = true ↔ s = "True" ∨ s = "TRUE" ∨ s = "true" := by
  constructor
  · intro h
    simp only [stringsEqualFoldTrue, Bool.and_eq_true, Bool.or_eq_true, beq_iff_eq] at h
    tauto
  · rintro (rfl | rfl | rfl) <;> decide

theorem condEntryTrue_iff (condType : String) (c : JVal) :
    condEntryTrue condType c = true ↔
      ∃ m, c = JVal.map m ∧
        ((lookupField m "type").bind JVal.asStr).getD "" = condType ∧
        (((lookupField m "status").bind JVal.asStr).getD "" = "True" ∨
         ((lookupField m "status").bind JVal.asStr).getD "" = "TRUE" ∨
         ((lookupField m "status").bind JVal.asStr).getD "" = "true") := by
  cases c with
  | map m =>
    simp only [condEntryTrue, JVal.asMap, Bool.and_eq_true, beq_iff_eq, JVal.map.injEq]
    rw [stringsEqualFoldTrue_iff]
    constructor
    · intro h; exact ⟨m, rfl, h.1, h.2⟩
    · rintro ⟨m2, hm, h1, h2⟩
      cases hm
      exact ⟨h1, h2⟩
  | str s => simp [condEntryTrue, JVal.asMap]
  | arr xs => simp [condEntryTrue, JVal.asMap]
  | other => simp [condEntryTrue, JVal.asMap]

theorem nestedSlice_status_conditions (o : JObj) :
    nestedSlice o ["status", "conditions"] =
      (nestedMap o ["status"]).bind (fun st => nestedSlice st ["conditions"]) := by
  cases h : (lookupField o "status").bind JVal.asMap with
  | none => simp [nestedSlice, nestedMap, nestedVal, h]
  | some st => simp [nestedSlice, nestedMap, nestedVal, h]

theorem isConditionTrue_eq_any (o : JObj) (condType : String) :
    isConditionTrue (some o) condType =
      ((condsOf o).getD []).any (condEntryTrue condType) := by
  unfold isConditionTrue condsOf
  cases h1 : nestedMap o ["status"] with
  | none => simp [h1]
  | some st =>
    cases h2 : nestedSlice st ["conditions"] with
    | none => simp [h1, h2]
    | some conds => simp [h1, h2]

/-- C2 (amended form of the evaluator contract): IsConditionTrue holds iff
the status.conditions list (as extracted by the evaluator) has a map entry
whose type field equals condType exactly and whose status field is one of
exactly "True", "TRUE", "true". -/
theorem IsConditionTrue_iff_entry (obj : Option JObj) (condType : String) :
    IsConditionTrue obj condType = true ↔
      ∃ o, obj = some o ∧ ∃ conds, condsOf o = some conds ∧
        ∃ c ∈ conds, ∃ m, c = JVal.map m ∧
          ((lookupField m "type").bind JVal.asStr).getD "" = condType ∧
          (((lookupField m "status").bind JVal.asStr).getD "" = "True" ∨
           ((lookupField m "status").bind JVal.asStr).getD "" = "TRUE" ∨
           ((lookupField m "status").bind JVal.asStr).getD "" = "true") := by
  unfold IsConditionTrue
  cases obj with
  | none => simp [isConditionTrue]
  | some o =>
    rw [isConditionTrue_eq_any]
    cases h : condsOf o with
    | none => simp [h]
    | some conds =>
      simp only [h, Option.getD_some, Option.some.injEq, List.any_eq_true]
      constructor
      · rintro ⟨c, hc, hct⟩
        exact ⟨o, rfl, conds, h, c, hc, (condEntryTrue_iff condType c).mp hct⟩
      · rintro ⟨o2, ho, conds2, hcs, c, hc, hm⟩
        cases ho
        rw [h] at hcs
        obtain rfl : conds = conds2 := by injection hcs
        exact ⟨c, hc, (condEntryTrue_iff condType c).mpr hm⟩

/-- C2 (counterexample): the status string "tRue" case-insensitively
equals "true" (as the claim's spec-side predicate accepts), yet
IsConditionTrue rejects the object. -/
theorem IsConditionTrue_rejects_tRue :
    IsConditionTrue (some objStatustRue) "Ready" = false ∧
      specIsConditionTrue (some objStatustRue) "Ready" = true :=
  ⟨rfl, rfl⟩

theorem getCondStatusLoop_foldTrue_mem (ct : String) (conds : List JVal)
    (h : stringsEqualFoldTrue (getCondStatusLoop ct conds) = true) :
    ∃ c ∈ conds, condEntryTrue ct c = true := by
  induction conds with
  | nil => simp [getCondStatusLoop] at h; cases h
  | cons c rest ih =>
    rw [getCondStatusLoop] at h
    cases hmap : c.asMap with
    | none =>
      simp only [hmap] at h
      obtain ⟨w, hw, hct⟩ := ih h
      exact ⟨w, List.mem_cons_of_mem _ hw, hct⟩
    | some m =>
      simp only [hmap] at h
      cases ht : (lookupField m "type").bind JVal.asStr with
      | none =>
        simp only [ht] at h
        obtain ⟨w, hw, hct⟩ := ih h
        exact ⟨w, List.mem_cons_of_mem _ hw, hct⟩
      | some t =>
        simp only [ht] at h
        by_cases hteq : t = ct
        · rw [if_pos hteq] at h
          cases hs : (lookupField m "status").bind JVal.asStr with
          | none =>
            simp only [hs] at h
            obtain ⟨w, hw, hct⟩ := ih h
            exact ⟨w, List.mem_cons_of_mem _ hw, hct⟩
          | some s =>
            simp only [hs] at h
            refine ⟨c, List.mem_cons_self _ _, ?_⟩
            simp only [condEntryTrue, hmap, ht, hs, Option.getD_some,
              Bool.and_eq_true, beq_iff_eq]
            exact ⟨hteq, h⟩
        · rw [if_neg hteq] at h
          obtain ⟨w, hw, hct⟩ := ih h
          exact ⟨w, List.mem_cons_of_mem _ hw, hct⟩

/-- C3 (amended): the Propagation Controller's readiness classification
implies the Condition Evaluator's verdict: whenever the controller
classifies an event object as ready (GetConditionStatus == "True"),
IsConditionTrue(object, "Ready") also holds. The converse fails. -/
theorem controllerIsReady_implies_IsConditionTrue (o : JObj)
    (h : controllerIsReady o = true) : IsConditionTrue (some o) "Ready" = true := by
  have hstat : GetConditionStatus o "Ready" = "True" := by
    simpa [controllerIsReady] using h
  unfold GetConditionStatus at hstat
  cases hsl : nestedSlice o ["status", "conditions"] with
  | none =>
    simp only [hsl] at hstat
    exact absurd hstat (by decide)
  | some arr =>
    simp only [hsl] at hstat
    have hmem : ∃ c ∈ arr, condEntryTrue "Ready" c = true := by
      apply getCondStatusLoop_foldTrue_mem
      rw [hstat]; decide
    have hconds : condsOf o = some arr := by
      unfold condsOf
      rw [← nestedSlice_status_conditions]
      exact hsl
    unfold IsConditionTrue
    rw [isConditionTrue_eq_any, hconds]
    simpa [List.any_eq_true] using hmem

/-- C3 (witness for the amended theorem): a concrete object whose Ready
condition has status exactly "True". -/
theorem controllerIsReady_implies_IsConditionTrue_witness :
    IsConditionTrue (some objStatusTrue) "Ready" = true :=
  controllerIsReady_implies_IsConditionTrue objStatusTrue (by decide)

/-- C3 (counterexample): for a Ready condition with status "TRUE" the
evaluator reports true but the controller's event loop classifies the
object as not ready, so the two classifications are not equivalent. -/
theorem controllerIsReady_ne_IsConditionTrue :
    controllerIsReady objStatusTRUE = false ∧
      IsConditionTrue (some objStatusTRUE) "Ready" = true := by
  decide

/-! ### Controller event-loop lemmas (C1, C4) -/

theorem countReady_set_new (m : List (String × Bool)) (k : String) (b : Bool)
    (h : lookupKey m k = none) :
    countReady (setKey m k b) = countReady m + (if b then 1 else 0) := by
  induction m with
  | nil =>
    cases b <;> simp [setKey, countReady, List.filter]
  | cons kv rest ih =>
    obtain ⟨k2, v⟩ := kv
    rw [lookupKey] at h
    by_cases hk : k2 = k
    · rw [if_pos hk] at h; cases h
    · rw [if_neg hk] at h
      have ih2 := ih h
      cases v <;>
        simp [setKey, hk, countReady, List.filter] at ih2 ⊢ <;> omega

theorem countReady_set_flip_true (m : List (String × Bool)) (k : String)
    (h : lookupKey m k = some false) :
    countReady (setKey m k true) = countReady m + 1 := by
  induction m with
  | nil => rw [lookupKey] at h; cases h
  | cons kv rest ih =>
    obtain ⟨k2, v⟩ := kv
    rw [lookupKey] at h
    by_cases hk : k2 = k
    · rw [if_pos hk] at h
      obtain rfl : v = false := by injection h
      simp [setKey, hk, countReady, List.filter]
    · rw [if_neg hk] at h
      have ih2 := ih h
      cases v <;>
        simp [setKey, hk, countReady, List.filter] at ih2 ⊢ <;> omega

theorem countReady_set_flip_false (m : List (String × Bool)) (k : String)
    (h : lookupKey m k = some true) :
    countReady (setKey m k false) + 1 = countReady m := by
  induction m with
  | nil => rw [lookupKey] at h; cases h
  | cons kv rest ih =>
    obtain ⟨k2, v⟩ := kv
    rw [lookupKey] at h
    by_cases hk : k2 = k
    · rw [if_pos hk] at h
      obtain rfl : v = true := by injection h
      simp [setKey, hk, countReady, List.filter]
    · rw [if_neg hk] at h
      have ih2 := ih h
      cases v <;>
        simp [setKey, hk, countReady, List.filter] at ih2 ⊢ <;> omega

theorem ctrlInv_init (total : Nat) : CtrlInv total initState := by
  constructor
  · simp [initState, countReady]
  · simp [initState, countReady]
    intro h
    omega

theorem stepEvent_fst_ready (total : Nat) (s : CtrlState) (e : XkubeEvent) :
    (stepEvent total s e).1.ready = (countReady (stepEvent total s e).1.readyMap : Int) →
    ((stepEvent total s e).1.cancelled = true ↔
      0 < total ∧ countReady (stepEvent total s e).1.readyMap = total) := by
  intro hsync
  simp only [stepEvent]
  constructor
  · intro h
    simp only [Bool.and_eq_true, decide_eq_true_eq, beq_iff_eq] at h
    obtain ⟨h1, h2⟩ := h
    refine ⟨h1, ?_⟩
    have := hsync
    simp only [stepEvent] at this
    omega
  · intro ⟨h1, h2⟩
    simp only [Bool.and_eq_true, decide_eq_true_eq, beq_iff_eq]
    refine ⟨h1, ?_⟩
    have := hsync
    simp only [stepEvent] at this
    omega

theorem stepEvent_preserves_inv (total : Nat) (s : CtrlState) (e : XkubeEvent)
    (h : CtrlInv total s) : CtrlInv total (stepEvent total s e).1 := by
  obtain ⟨hsync, _⟩ := h
  have hsync2 : (stepEvent total s e).1.ready =
      (countReady (stepEvent total s e).1.readyMap : Int) := by
    simp only [stepEvent]
    cases hl : lookupKey s.readyMap e.key with
    | none =>
      cases hre : e.isReady <;>
        simp [countReady_set_new s.readyMap e.key _ hl, hre, hsync]
    | some prev =>
      cases prev <;> cases hre : e.isReady
      · simpa [hre] using hsync
      · have hc := countReady_set_flip_true s.readyMap e.key hl
        simp only [hre]
        simp only [ne_eq, Bool.false_eq_true, not_false_eq_true, if_true, if_pos]
        push_cast [hc]
        omega
      · have hc := countReady_set_flip_false s.readyMap e.key hl
        simp only [hre]
        simp only [ne_eq, Bool.true_eq_false, not_false_eq_true, if_true, if_pos]
        push_cast [← hc]
        omega
      · simpa [hre] using hsync
  exact ⟨hsync2, stepEvent_fst_ready total s e hsync2⟩

theorem runEvents_preserves_inv (total : Nat) (evs : List XkubeEvent)
    (s : CtrlState) (h : CtrlInv total s) : CtrlInv total (runEvents total s evs).1 := by
  induction evs generalizing s with
  | nil => exact h
  | cons e rest ih =>
    rw [runEvents]
    by_cases hc : s.cancelled
    · rw [if_pos hc]; exact h
    · rw [if_neg hc]
      exact ih _ (stepEvent_preserves_inv total s e h)

/-- C4: Run's event loop self-cancels (cancels the child context, stopping
the watch and returning nil) exactly when the number of objects recorded
Ready equals the total taken from the initial listing and that total is
positive; in particular with an empty initial listing (total = 0) the loop
never self-cancels, so Run returns only via the parent context. -/
theorem run_cancel_characterization (total : Nat) (evs : List XkubeEvent) :
    ((runEvents total initState evs).1.cancelled = true ↔
      0 < total ∧ countReady (runEvents total initState evs).1.readyMap = total) ∧
    (total = 0 → (runEvents total initState evs).1.cancelled = false) := by
  have h := runEvents_preserves_inv total evs initState (ctrlInv_init total)
  refine ⟨h.2, ?_⟩
  intro h0
  cases hc : (runEvents total initState evs).1.cancelled
  · rfl
  · have := h.2.mp hc
    omega

/-- C4 (witness): with an empty initial listing (total = 0) a ready event
does not make the loop self-cancel. -/
theorem run_cancel_characterization_witness :
    (runEvents 0 initState [⟨"default/a", true⟩]).1.cancelled = false :=
  (run_cancel_characterization 0 [⟨"default/a", true⟩]).2 rfl

/-- C1 (counterexample): an event for an object already recorded as ready,
with unchanged readiness, still invokes handleReadyXkube — the claim that
such events are bookkeeping-only (no handler call) is false. After a first
Ready event for "default/a" (total 3, no self-cancel), a second identical
event returns handler-called = true. -/
theorem handler_called_on_already_ready :
    lookupKey ((runEvents 3 initState [⟨"default/a", true⟩]).1.readyMap) "default/a"
        = some true ∧
      (stepEvent 3 (runEvents 3 initState [⟨"default/a", true⟩]).1
        ⟨"default/a", true⟩).2 = true := by
  decide

/-- C1 (amended): in the watch event loop, handleReadyXkube is invoked
exactly when the delivered event's object is currently Ready — including
events for objects already recorded as ready; events whose object is not
Ready never invoke the handler. Stated for a single step and for the
loop's recursion. -/
theorem handler_called_iff_event_ready (total : Nat) (s : CtrlState)
    (e : XkubeEvent) (evs : List XkubeEvent) (h : s.cancelled = false) :
    (stepEvent total s e).2 = e.isReady ∧
      (runEvents total s (e :: evs)).2 =
        (if e.isReady then [e.key] else []) ++ (runEvents total (stepEvent total s e).1 evs).2 := by
  constructor
  · rfl
  · rw [runEvents, if_neg (by rw [h]; exact Bool.false_ne_true)]
    rfl

/-- C1 (witness for the amended theorem): from the initial state, a
not-ready event calls no handler and a ready event calls it. -/
theorem handler_called_iff_event_ready_witness :
    (stepEvent 3 initState ⟨"default/a", false⟩).2 = false ∧
      (runEvents 3 initState [⟨"default/a", true⟩]).2 = ["default/a"] := by
  refine ⟨(handler_called_iff_event_ready 3 initState ⟨"default/a", false⟩ [] rfl).1, ?_⟩
  have h := (handler_called_iff_event_ready 3 initState ⟨"default/a", true⟩ [] rfl).2
  rw [h]
  rfl

/-! ### DeployedMatrix / propagation lemmas (C5) -/

theorem propagate_keeps_deployed (applyOk : Secret → Bool) (target : String)
    (secrets : List Secret) :
    ∀ (d : Deployed) (p : String × String), p ∈ d →
      p ∈ (propagateSecrets applyOk target d secrets).1 := by
  induction secrets with
  | nil => intro d p h; simpa [propagateSecrets] using h
  | cons secret rest ih =>
    intro d p h
    rw [propagateSecrets]
    by_cases h1 : secret.sourceLabel = "" ∨ secret.sourceLabel = target
    · rw [if_pos h1]; exact ih d p h
    · rw [if_neg h1]
      by_cases h2 : isDeployed d secret.sourceLabel target = true
      · rw [if_pos h2]; exact ih d p h
      · rw [if_neg h2]
        by_cases h3 : applyOk secret = true
        · rw [if_pos h3]
          exact ih _ p (List.mem_cons_of_mem _ h)
        · rw [if_neg h3]
          exact ih d p h

theorem isDeployed_final_of_mem (applyOk : Secret → Bool) (target : String)
    (secrets : List Secret) (d : Deployed) (src : String)
    (h : (src, target) ∈ d) :
    isDeployed (propagateSecrets applyOk target d secrets).1 src target = true := by
  simpa [isDeployed] using propagate_keeps_deployed applyOk target secrets d (src, target) h

theorem no_apply_for_deployed (applyOk : Secret → Bool) (target : String)
    (secrets : List Secret) :
    ∀ (d : Deployed) (src : String), isDeployed d src target = true →
      ∀ call ∈ (propagateSecrets applyOk target d secrets).2, call.1 ≠ src := by
  induction secrets with
  | nil => intro d src _ call hc; simp [propagateSecrets] at hc
  | cons secret rest ih =>
    intro d src hdep call hc
    rw [propagateSecrets] at hc
    by_cases h1 : secret.sourceLabel = "" ∨ secret.sourceLabel = target
    · rw [if_pos h1] at hc; exact ih d src hdep call hc
    · rw [if_neg h1] at hc
      by_cases h2 : isDeployed d secret.sourceLabel target = true
      · rw [if_pos h2] at hc; exact ih d src hdep call hc
      · rw [if_neg h2] at hc
        by_cases h3 : applyOk secret = true
        · rw [if_pos h3] at hc
          rcases List.mem_cons.mp hc with hhead | htail
          · intro hsrc
            have hlab : secret.sourceLabel = src := by rw [hhead] at hsrc; exact hsrc
            rw [hlab] at h2
            exact h2 hdep
          · refine ih _ src ?_ call htail
            simp only [isDeployed, markDeployed, decide_eq_true_eq] at hdep ⊢
            exact List.mem_cons_of_mem _ hdep
        · rw [if_neg h3] at hc
          rcases List.mem_cons.mp hc with hhead | htail
          · intro hsrc
            have hlab : secret.sourceLabel = src := by rw [hhead] at hsrc; exact hsrc
            rw [hlab] at h2
            exact h2 hdep
          · exact ih d src hdep call htail

theorem filter_src_nil_of_ne (src : String) (l : List (String × Secret))
    (h : ∀ call ∈ l, call.1 ≠ src) :
    (l.filter (fun call => call.1 == src)).length = 0 := by
  rw [List.length_eq_zero]
  rw [List.filter_eq_nil_iff]
  intro call hc
  simpa using h call hc

theorem one_apply_per_pair (applyOk : Secret → Bool) (target : String)
    (secrets : List Secret) :
    ∀ (d : Deployed) (src : String),
      (∀ sec ∈ secrets, applyOk sec = true) →
      isDeployed d src target = false →
      src ≠ "" → src ≠ target →
      (∃ sec ∈ secrets, sec.sourceLabel = src) →
      (((propagateSecrets applyOk target d secrets).2).filter
          (fun call => call.1 == src)).length = 1 ∧
        isDeployed (propagateSecrets applyOk target d secrets).1 src target = true := by
  induction secrets with
  | nil =>
    intro d src _ _ _ _ hex
    simp at hex
  | cons secret rest ih =>
    intro d src hall hdep hne hnt hex
    by_cases heq : secret.sourceLabel = src
    · rw [propagateSecrets]
      rw [if_neg (by rw [heq]; tauto)]
      rw [if_neg (by rw [heq]; simp [hdep])]
      rw [if_pos (hall secret (List.mem_cons_self _ _))]
      have hmem : (src, target) ∈ markDeployed d secret.sourceLabel target := by
        rw [heq]; exact List.mem_cons_self _ _
      have hdep2 : isDeployed (markDeployed d secret.sourceLabel target) src target = true := by
        simpa [isDeployed] using hmem
      have hnone := no_apply_for_deployed applyOk target rest
        (markDeployed d secret.sourceLabel target) src hdep2
      constructor
      · rw [List.filter_cons, if_pos (by simpa using heq)]
        rw [List.length_cons, filter_src_nil_of_ne src _ hnone]
      · exact isDeployed_final_of_mem applyOk target rest _ src hmem
    · have hex2 : ∃ sec ∈ rest, sec.sourceLabel = src := by
        rcases hex with ⟨sec, hsec, hlab⟩
        rcases List.mem_cons.mp hsec with rfl | hsec2
        · exact absurd hlab heq
        · exact ⟨sec, hsec2, hlab⟩
      have hall2 : ∀ sec ∈ rest, applyOk sec = true :=
        fun sec hs => hall sec (List.mem_cons_of_mem _ hs)
      rw [propagateSecrets]
      by_cases h1 : secret.sourceLabel = "" ∨ secret.sourceLabel = target
      · rw [if_pos h1]; exact ih d src hall2 hdep hne hnt hex2
      · rw [if_neg h1]
        by_cases h2 : isDeployed d secret.sourceLabel target = true
        · rw [if_pos h2]; exact ih d src hall2 hdep hne hnt hex2
        · rw [if_neg h2]
          rw [if_pos (hall secret (List.mem_cons_self _ _))]
          have hdep3 : isDeployed (markDeployed d secret.sourceLabel target) src target = false := by
            simp only [isDeployed, markDeployed, decide_eq_false_iff_not] at hdep ⊢
            intro hmem
            rcases List.mem_cons.mp hmem with hpair | hd
            · exact heq (by injection hpair with a b; exact a.symm)
            · exact hdep hd
          have hrec := ih (markDeployed d secret.sourceLabel target) src hall2 hdep3 hne hnt hex2
          constructor
          · simp only [List.filter]
            rw [show (((secret.sourceLabel, secret).1 == src)) = false by
              simpa using heq]
            exact hrec.1
          · exact hrec.2

theorem deployed_only_after_success (applyOk : Secret → Bool) (target : String)
    (secrets : List Secret) :
    ∀ (d : Deployed) (p : String × String),
      p ∈ (propagateSecrets applyOk target d secrets).1 →
      p ∈ d ∨ ∃ sec ∈ secrets, sec.sourceLabel = p.1 ∧ p.2 = target ∧ applyOk sec = true := by
  induction secrets with
  | nil =>
    intro d p h
    simp only [propagateSecrets] at h
    exact Or.inl h
  | cons secret rest ih =>
    intro d p h
    rw [propagateSecrets] at h
    by_cases h1 : secret.sourceLabel = "" ∨ secret.sourceLabel = target
    · rw [if_pos h1] at h
      rcases ih d p h with hd | ⟨sec, hs, hrest⟩
      · exact Or.inl hd
      · exact Or.inr ⟨sec, List.mem_cons_of_mem _ hs, hrest⟩
    · rw [if_neg h1] at h
      by_cases h2 : isDeployed d secret.sourceLabel target = true
      · rw [if_pos h2] at h
        rcases ih d p h with hd | ⟨sec, hs, hrest⟩
        · exact Or.inl hd
        · exact Or.inr ⟨sec, List.mem_cons_of_mem _ hs, hrest⟩
      · rw [if_neg h2] at h
        by_cases h3 : applyOk secret = true
        · rw [if_pos h3] at h
          rcases ih _ p h with hd | ⟨sec, hs, hrest⟩
          · rcases List.mem_cons.mp hd with hpair | hd2
            · refine Or.inr ⟨secret, List.mem_cons_self _ _, ?_, ?_, h3⟩
              · rw [hpair]
              · rw [hpair]
            · exact Or.inl hd2
          · exact Or.inr ⟨sec, List.mem_cons_of_mem _ hs, hrest⟩
        · rw [if_neg h3] at h
          rcases ih d p h with hd | ⟨sec, hs, hrest⟩
          · exact Or.inl hd
          · exact Or.inr ⟨sec, List.mem_cons_of_mem _ hs, hrest⟩

/-- C5: the DeployedMatrix discipline of handleReadyXkube's secret loop:
(1) once a pair (source, target) is marked deployed, a propagation run
performs no remote apply call for that pair (unless the matrix is
explicitly cleared); (2) two successive handler runs for the same target
over the same secret list, with successful applies, perform exactly one
remote apply call for the pair; (3) a pair is added to the matrix only
when it was already present or a secret with that source label was
applied successfully to that target. -/
theorem deployedMatrix_propagation :
    (∀ (applyOk : Secret → Bool) (target : String) (d : Deployed)
        (secrets : List Secret) (src : String),
      isDeployed d src target = true →
      ∀ call ∈ (propagateSecrets applyOk target d secrets).2, call.1 ≠ src) ∧
    (∀ (applyOk : Secret → Bool) (target : String) (d : Deployed)
        (secrets : List Secret) (src : String),
      (∀ sec ∈ secrets, applyOk sec = true) →
      isDeployed d src target = false →
      src ≠ "" → src ≠ target →
      (∃ sec ∈ secrets, sec.sourceLabel = src) →
      (((propagateSecrets applyOk target d secrets).2 ++
          (propagateSecrets applyOk target
            (propagateSecrets applyOk target d secrets).1 secrets).2).filter
          (fun call => call.1 == src)).length = 1) ∧
    (∀ (applyOk : Secret → Bool) (target : String) (d : Deployed)
        (secrets : List Secret) (p : String × String),
      p ∈ (propagateSecrets applyOk target d secrets).1 →
      p ∈ d ∨ ∃ sec ∈ secrets, sec.sourceLabel = p.1 ∧ p.2 = target ∧ applyOk sec = true) := by
  refine ⟨?_, ?_, ?_⟩
  · intro applyOk target d secrets src hdep call hc
    exact no_apply_for_deployed applyOk target secrets d src hdep call hc
  · intro applyOk target d secrets src hall hdep hne hnt hex
    have h1 := one_apply_per_pair applyOk target secrets d src hall hdep hne hnt hex
    have h2 := no_apply_for_deployed applyOk target secrets
      (propagateSecrets applyOk target d secrets).1 src h1.2
    rw [List.filter_append, List.length_append, h1.1, filter_src_nil_of_ne src _ h2]
  · intro applyOk target d secrets p h
    exact deployed_only_after_success applyOk target secrets d p h

/-- C5 (witness): with two secrets from source "a", a target "b", an empty
matrix and successful applies, two successive handler runs perform exactly
one apply call for the pair (a, b). -/
theorem deployedMatrix_propagation_witness :
    (((propagateSecrets (fun _ => true) "b" [] [⟨"ns", "s1", "a"⟩, ⟨"ns", "s2", "a"⟩]).2 ++
        (propagateSecrets (fun _ => true) "b"
          (propagateSecrets (fun _ => true) "b" [] [⟨"ns", "s1", "a"⟩, ⟨"ns", "s2", "a"⟩]).1
          [⟨"ns", "s1", "a"⟩, ⟨"ns", "s2", "a"⟩]).2).filter
        (fun call => call.1 == "a")).length = 1 :=
  deployedMatrix_propagation.2.1 (fun _ => true) "b" [] [⟨"ns", "s1", "a"⟩, ⟨"ns", "s2", "a"⟩]
    "a" (by decide) (by decide) (by decide) (by decide) (by decide)

/-! ### Sequential waiter: first failure stops the run (C6) -/

theorem waitLoop_fail_at (waitFor : Nat → Option String) (total : Nat) :
    ∀ (specs : List WaitResourceSpec) (i c k : Nat) (e : String) (hk : k < specs.length),
      (∀ j, j < k → waitFor (i + j) = none) → waitFor (i + k) = some e →
      (waitLoop waitFor total i c specs).2.1 = List.range' i (k + 1) ∧
      (waitLoop waitFor total i c specs).2.2 = some (mkSeqErr (specs.get ⟨k, hk⟩) e) := by
  intro specs
  induction specs with
  | nil =>
    intro i c k e hk
    exact absurd hk (by simp)
  | cons spec rest ih =>
    intro i c k e hk hnone hsome
    cases k with
    | zero =>
      have h0 : waitFor i = some e := by simpa using hsome
      simp [waitLoop, h0, List.range']
    | succ k2 =>
      have h0 : waitFor i = none := by simpa using hnone 0 (Nat.succ_pos k2)
      have hk2 : k2 < rest.length := by simpa using Nat.lt_of_succ_lt_succ hk
      have hnone2 : ∀ j, j < k2 → waitFor (i + 1 + j) = none := by
        intro j hj
        have h3 : i + 1 + j = i + (j + 1) := by omega
        rw [h3]
        exact hnone (j + 1) (by omega)
      have hsome2 : waitFor (i + 1 + k2) = some e := by
        have h3 : i + 1 + k2 = i + (k2 + 1) := by omega
        rw [h3]
        exact hsome
      obtain ⟨hidx, herr⟩ := ih (i + 1) (c + 1) k2 e hk2 hnone2 hsome2
      constructor
      · simp only [waitLoop, h0]
        rw [List.range'_succ, hidx]
      · simp only [waitLoop, h0]
        rw [herr]
        rfl

/-- C6: when the wait for descriptor k fails (timeout/cancellation) and
all earlier descriptors succeeded, WaitForResourcesReadySequential returns
the wrapper error built from exactly that descriptor's kind description,
GVR resource, (coalesced) namespace, name and condition type, and the
attempted descriptors are exactly 0..k in order: descriptors k+1..N are
never attempted, each descriptor is attempted at most once, and the
sequence is not retried. -/
theorem waitSequential_stops_at_first_failure (waitFor : Nat → Option String)
    (specs : List WaitResourceSpec) (k : Nat) (e : String) (hk : k < specs.length)
    (hnone : ∀ j, j < k → waitFor j = none) (hsome : waitFor k = some e) :
    (WaitForResourcesReadySequential waitFor specs).2.2 =
      some (mkSeqErr (specs.get ⟨k, hk⟩) e) ∧
    (WaitForResourcesReadySequential waitFor specs).2.1 = List.range (k + 1) := by
  have hne : specs ≠ [] := by
    intro h
    rw [h] at hk
    exact absurd hk (by simp)
  have hemp : specs.isEmpty = false := by
    cases specs
    · exact absurd rfl hne
    · rfl
  have hmain := waitLoop_fail_at waitFor specs.length specs 0 0 k e hk
    (by simpa using hnone) (by simpa using hsome)
  constructor
  · simp only [WaitForResourcesReadySequential, hemp, Bool.false_eq_true, if_false]
    exact hmain.2
  · simp only [WaitForResourcesReadySequential, hemp, Bool.false_eq_true, if_false]
    rw [hmain.1, List.range_eq_range']

/-- C6 (witness): three descriptors, the second fails with "boom": the
returned error names descriptor B and only descriptors 0 and 1 are
attempted. -/
theorem waitSequential_stops_witness :
    (WaitForResourcesReadySequential failAtSecond sampleSpecs).2.2 =
      some (mkSeqErr (sampleSpecs.get ⟨1, by decide⟩) "boom") ∧
    (WaitForResourcesReadySequential failAtSecond sampleSpecs).2.1 = List.range 2 :=
  waitSequential_stops_at_first_failure failAtSecond sampleSpecs 1 "boom" (by decide)
    (fun j hj => by
      have hj0 : j = 0 := by omega
      rw [hj0]
      rfl)
    rfl

/-! ### Sequential waiter: overall percent invariant (C8) -/

theorem countCompleted_cons (ev : SeqEvent) (l : List SeqEvent) :
    countCompleted (ev :: l) = (if ev.ResourceCompleted then 1 else 0) + countCompleted l := by
  cases h : ev.ResourceCompleted <;>
    simp [countCompleted, List.filter_cons, h, Nat.add_comm]

theorem countCompleted_take_le (l : List SeqEvent) (m n : Nat) (h : m ≤ n) :
    countCompleted (l.take m) ≤ countCompleted (l.take n) := by
  have heq : (l.take n).take m = l.take m := by
    rw [List.take_take, Nat.min_eq_left h]
  have hsub : List.Sublist (l.take m) (l.take n) := by
    rw [← heq]
    exact List.take_sublist m (l.take n)
  exact List.Sublist.length_le (List.Sublist.filter _ hsub)

theorem waitLoop_pct (waitFor : Nat → Option String) (total : Nat) :
    ∀ (specs : List WaitResourceSpec) (i c k : Nat) (ev : SeqEvent),
      (waitLoop waitFor total i c specs).1.get? k = some ev →
      ev.OverallPercent =
        ((c + countCompleted ((waitLoop waitFor total i c specs).1.take (k + 1)) : Nat) : ℚ)
          / (total : ℚ) * 100 := by
  intro specs
  induction specs with
  | nil =>
    intro i c k ev hev
    simp [waitLoop] at hev
  | cons spec rest ih =>
    intro i c k ev hev
    cases hw : waitFor i with
    | some e =>
      simp only [waitLoop, hw] at hev ⊢
      match k with
      | 0 =>
        have hinj := Option.some.inj hev
        subst hinj
        simp [countCompleted, List.filter]
      | 1 =>
        have hinj := Option.some.inj hev
        subst hinj
        simp [countCompleted, List.filter]
      | Nat.succ (Nat.succ n) =>
        rw [List.get?_cons_succ, List.get?_cons_succ] at hev
        simp at hev
    | none =>
      simp only [waitLoop, hw] at hev ⊢
      match k with
      | 0 =>
        have hinj := Option.some.inj hev
        subst hinj
        simp [countCompleted, List.filter]
      | 1 =>
        have hinj := Option.some.inj hev
        subst hinj
        simp [countCompleted, List.filter, List.take_succ_cons]
      | Nat.succ (Nat.succ n) =>
        rw [List.get?_cons_succ, List.get?_cons_succ] at hev
        have hih := ih (i + 1) (c + 1) n ev hev
        rw [List.take_succ_cons, List.take_succ_cons, countCompleted_cons, countCompleted_cons]
        rw [hih]
        congr 2
        show ((c + 1 + countCompleted (List.take (n + 1)
            (waitLoop waitFor total (i + 1) (c + 1) rest).1) : Nat) : ℚ) =
          ((c + (0 + (1 + countCompleted (List.take (n + 1)
            (waitLoop waitFor total (i + 1) (c + 1) rest).1))) : Nat) : ℚ)
        rw [Nat.cast_inj]
        omega

/-- C8: at every progress event emitted in a single run of
WaitForResourcesReadySequential, the overall percent equals (number of
resources fully completed so far, the emitting event included) divided by
the total number of descriptors times 100; across the run the percent is
monotonically non-decreasing. It is a function of the completed count
only, never of elapsed time. -/
theorem waitSequential_percent (waitFor : Nat → Option String)
    (specs : List WaitResourceSpec) :
    (∀ (k : Nat) (ev : SeqEvent),
      (WaitForResourcesReadySequential waitFor specs).1.get? k = some ev →
      ev.OverallPercent =
        (countCompleted ((WaitForResourcesReadySequential waitFor specs).1.take (k + 1)) : ℚ)
          / (specs.length : ℚ) * 100) ∧
    List.Pairwise (fun a b => a.OverallPercent ≤ b.OverallPercent)
      (WaitForResourcesReadySequential waitFor specs).1 := by
  by_cases hemp : specs.isEmpty = true
  · constructor
    · intro k ev hev
      simp [WaitForResourcesReadySequential, hemp] at hev
    · simp [WaitForResourcesReadySequential, hemp]
  · have hemp2 : specs.isEmpty = false := by
      cases h : specs.isEmpty
      · rfl
      · exact absurd h hemp
    constructor
    · intro k ev hev
      simp only [WaitForResourcesReadySequential, hemp2, Bool.false_eq_true, if_false] at hev ⊢
      simpa using waitLoop_pct waitFor specs.length specs 0 0 k ev hev
    · simp only [WaitForResourcesReadySequential, hemp2, Bool.false_eq_true, if_false]
      rw [List.pairwise_iff_get]
      intro a b hab
      have hpa := waitLoop_pct waitFor specs.length specs 0 0 a.1
        ((waitLoop waitFor specs.length 0 0 specs).1.get a) (List.get?_eq_get a.2)
      have hpb := waitLoop_pct waitFor specs.length specs 0 0 b.1
        ((waitLoop waitFor specs.length 0 0 specs).1.get b) (List.get?_eq_get b.2)
      rw [hpa, hpb]
      have hcount : 0 + countCompleted ((waitLoop waitFor specs.length 0 0 specs).1.take (a.1 + 1)) ≤
          0 + countCompleted ((waitLoop waitFor specs.length 0 0 specs).1.take (b.1 + 1)) :=
        Nat.add_le_add_left (countCompleted_take_le _ _ _ (by omega)) 0
      exact mul_le_mul_of_nonneg_right
        (div_le_div_of_nonneg_right (by exact_mod_cast hcount) (Nat.cast_nonneg _))
        (by norm_num)

/-- C8 (witness): the first event of a three-resource run carries percent
0/3*100, the completed count over the total. -/
theorem waitSequential_percent_witness :
    (⟨"Waiting for A", 1, 3, ((0 : Nat) : ℚ) / ((3 : Nat) : ℚ) * 100, "A",
        "<cluster-scope>", "", ⟨"g", "v", "images"⟩, false, none⟩ : SeqEvent).OverallPercent =
      (countCompleted ((WaitForResourcesReadySequential (fun _ => none) sampleSpecs).1.take 1) : ℚ)
        / ((sampleSpecs.length : ℚ)) * 100 :=
  (waitSequential_percent (fun _ => none) sampleSpecs).1 0
    ⟨"Waiting for A", 1, 3, ((0 : Nat) : ℚ) / ((3 : Nat) : ℚ) * 100, "A",
      "<cluster-scope>", "", ⟨"g", "v", "images"⟩, false, none⟩ rfl

/-! ### Name Resolver lemmas (C7, C9) -/

theorem extract_supported (obj : JObj) (r : String) (h : supportedResource r) :
    extractManifestName obj r = .ok (fingerprintOf obj r) := by
  rcases h with h | h | h | h <;> subst h <;> rfl

theorem extract_unsupported (obj : JObj) (r : String) (h : ¬ supportedResource r) :
    extractManifestName obj r =
      .error ("unsupported GVR resource " ++ r ++ " for resolving manifest name") := by
  rw [supportedResource, not_or, not_or, not_or] at h
  obtain ⟨h1, h2, h3, h4⟩ := h
  rw [extractManifestName, if_neg h1, if_neg h2, if_neg (not_or.mpr ⟨h3, h4⟩)]

theorem findManifestMatch_eq_find (r fp : String) (h : supportedResource r) :
    ∀ items : List JObj,
      findManifestMatch r fp items =
        .ok (((items.find? (fun it => fingerprintOf it r == fp)).map itemGetName).getD "") := by
  intro items
  induction items with
  | nil => rfl
  | cons it rest ih =>
    rw [findManifestMatch]
    simp only [extract_supported it r h]
    by_cases hm : fingerprintOf it r = fp
    · rw [if_pos hm, List.find?_cons_of_pos _ (by simpa using hm)]
      rfl
    · rw [if_neg hm, List.find?_cons_of_neg _ (by simpa using hm)]
      exact ih

/-- C7: the Name Resolver's per-descriptor algorithm and its fail-fast
pass: (1) descriptors with a resolved name or an empty fingerprint are
skipped unchanged; (2) for a processed descriptor of supported resource
type, the resolved name is set to the name of the first listed item (in
list order) whose extracted fingerprint equals the descriptor's
fingerprint (provided that item carries a name, which Kubernetes
guarantees); (3) when no item matches after the full scan, the result is
the couldNotResolve error built from the kind description, resource type,
namespace and fingerprint; (4) a listing error aborts with the listing
error; (5) an unsupported resource type aborts with an error; (6) the
first failing descriptor aborts the whole pass: the error is returned and
the failing descriptor and all later ones are untouched. -/
theorem resolver_contract :
    (∀ (lister : Lister) (spec : WaitResourceSpec),
      spec.Name ≠ "" ∨ spec.ManifestMetadataName = "" →
      resolveOne lister spec = .ok spec) ∧
    (∀ (lister : Lister) (spec : WaitResourceSpec) (items : List JObj) (it : JObj),
      spec.Name = "" → spec.ManifestMetadataName ≠ "" →
      supportedResource spec.GVR.resource →
      lister spec.GVR spec.Namespace = .ok items →
      items.find? (fun o => fingerprintOf o spec.GVR.resource == spec.ManifestMetadataName)
        = some it →
      itemGetName it ≠ "" →
      resolveOne lister spec = .ok { spec with Name := itemGetName it }) ∧
    (∀ (lister : Lister) (spec : WaitResourceSpec) (items : List JObj),
      spec.Name = "" → spec.ManifestMetadataName ≠ "" →
      supportedResource spec.GVR.resource →
      lister spec.GVR spec.Namespace = .ok items →
      items.find? (fun o => fingerprintOf o spec.GVR.resource == spec.ManifestMetadataName)
        = none →
      resolveOne lister spec = .error (.couldNotResolve spec.KindDescription
        spec.GVR.resource spec.Namespace spec.ManifestMetadataName)) ∧
    (∀ (lister : Lister) (spec : WaitResourceSpec) (e : String),
      spec.Name = "" → spec.ManifestMetadataName ≠ "" →
      lister spec.GVR spec.Namespace = .error e →
      resolveOne lister spec = .error (.listing spec.GVR.resource spec.KindDescription e)) ∧
    (∀ (lister : Lister) (spec : WaitResourceSpec) (items : List JObj),
      spec.Name = "" → spec.ManifestMetadataName ≠ "" →
      ¬ supportedResource spec.GVR.resource →
      lister spec.GVR spec.Namespace = .ok items →
      ∃ err, resolveOne lister spec = .error err) ∧
    (∀ (lister : Lister) (pre : List WaitResourceSpec) (spec : WaitResourceSpec)
        (post : List WaitResourceSpec) (e : ResolveErr),
      (∀ p ∈ pre, ∃ q, resolveOne lister p = .ok q) →
      resolveOne lister spec = .error e →
      ∃ pre2, pre2.length = pre.length ∧
        ResolveResourceNamesFromManifest lister (pre ++ spec :: post) =
          (pre2 ++ spec :: post, some e)) := by
  have hskip : ∀ (lister : Lister) (spec : WaitResourceSpec),
      spec.Name ≠ "" ∨ spec.ManifestMetadataName = "" →
      resolveOne lister spec = .ok spec := by
    intro lister spec h
    rw [resolveOne, if_pos h]
  refine ⟨hskip, ?_, ?_, ?_, ?_, ?_⟩
  · intro lister spec items it hname hfp hsup hlist hfind hne
    rw [resolveOne, if_neg (by simp [hname, hfp])]
    simp only [hlist, findManifestMatch_eq_find _ _ hsup, hfind,
      Option.map_some', Option.getD_some]
    rw [if_neg hne]
  · intro lister spec items hname hfp hsup hlist hfind
    rw [resolveOne, if_neg (by simp [hname, hfp])]
    simp only [hlist, findManifestMatch_eq_find _ _ hsup, hfind,
      Option.map_none', Option.getD_none]
    rw [if_pos trivial]
  · intro lister spec e hname hfp hlist
    rw [resolveOne, if_neg (by simp [hname, hfp])]
    simp only [hlist]
  · intro lister spec items hname hfp hsup hlist
    rw [resolveOne, if_neg (by simp [hname, hfp])]
    simp only [hlist]
    cases items with
    | nil =>
      rw [findManifestMatch]
      exact ⟨_, rfl⟩
    | cons it rest =>
      rw [findManifestMatch]
      simp only [extract_unsupported it _ hsup]
      exact ⟨_, rfl⟩
  · intro lister pre spec post e hpre herr
    induction pre with
    | nil =>
      refine ⟨[], rfl, ?_⟩
      simp only [List.nil_append]
      rw [ResolveResourceNamesFromManifest, herr]
    | cons p pre2 ih =>
      obtain ⟨q, hq⟩ := hpre p (List.mem_cons_self _ _)
      obtain ⟨pr, hlen, hres⟩ := ih (fun x hx => hpre x (List.mem_cons_of_mem _ hx))
      refine ⟨q :: pr, by simpa using hlen, ?_⟩
      simp only [List.cons_append]
      rw [ResolveResourceNamesFromManifest, hq, hres]

/-- C7 (witness): a descriptor with fingerprint "x1" resolves to the name
"obj-A" of the first (and only) listed item with that fingerprint. -/
theorem resolver_contract_witness :
    resolveOne listerOne specNeedsResolve =
      .ok { specNeedsResolve with Name := "obj-A" } :=
  resolver_contract.2.1 listerOne specNeedsResolve [itemObjA] itemObjA rfl
    (by decide) (Or.inr (Or.inr (Or.inr rfl))) rfl rfl (by decide)

theorem resolveOne_frame (lister : Lister) (s q : WaitResourceSpec)
    (h : resolveOne lister s = .ok q) :
    q = { s with Name := q.Name } ∧
      ((s.Name ≠ "" ∨ s.ManifestMetadataName = "") → q = s) := by
  rw [resolveOne] at h
  by_cases hskip : s.Name ≠ "" ∨ s.ManifestMetadataName = ""
  · rw [if_pos hskip] at h
    obtain rfl : s = q := by injection h
    exact ⟨rfl, fun _ => rfl⟩
  · rw [if_neg hskip] at h
    cases hl : lister s.GVR s.Namespace with
    | error e =>
      rw [hl] at h
      cases h
    | ok items =>
      rw [hl] at h
      simp only [] at h
      cases hf : findManifestMatch s.GVR.resource s.ManifestMetadataName items with
      | error e =>
        rw [hf] at h
        cases h
      | ok fn =>
        rw [hf] at h
        simp only [] at h
        by_cases hfn : fn = ""
        · rw [if_pos hfn] at h
          cases h
        · rw [if_neg hfn] at h
          obtain rfl : { s with Name := fn } = q := by injection h
          exact ⟨rfl, fun hc => absurd hc hskip⟩

/-- C9: ResolveResourceNamesFromManifest mutates only the Name field, and
only of descriptors that were eligible (empty Name, non-empty fingerprint)
at the start of the call; every other field of every descriptor, and every
field of skipped descriptors, is unchanged — also when the call returns an
error (positions are compared through getD, and the result has the same
length as the input). -/
theorem resolver_frame (lister : Lister) (specs : List WaitResourceSpec) :
    (ResolveResourceNamesFromManifest lister specs).1.length = specs.length ∧
    ∀ i : Nat,
      ((ResolveResourceNamesFromManifest lister specs).1.getD i default =
        { specs.getD i default with
            Name := ((ResolveResourceNamesFromManifest lister specs).1.getD i default).Name }) ∧
      ((specs.getD i default).Name ≠ "" ∨ (specs.getD i default).ManifestMetadataName = "" →
        (ResolveResourceNamesFromManifest lister specs).1.getD i default = specs.getD i default) := by
  induction specs with
  | nil =>
    refine ⟨rfl, ?_⟩
    intro i
    exact ⟨rfl, fun _ => rfl⟩
  | cons s rest ih =>
    rw [ResolveResourceNamesFromManifest]
    cases hr : resolveOne lister s with
    | error e =>
      refine ⟨rfl, ?_⟩
      intro i
      exact ⟨rfl, fun _ => rfl⟩
    | ok q =>
      obtain ⟨hframe, hskipeq⟩ := resolveOne_frame lister s q hr
      constructor
      · simpa using ih.1
      · intro i
        cases i with
        | zero =>
          refine ⟨?_, ?_⟩
          · simpa [List.getD_cons_zero] using hframe
          · intro hc
            simpa [List.getD_cons_zero] using hskipeq hc
        | succ n =>
          refine ⟨?_, ?_⟩
          · simpa [List.getD_cons_succ] using (ih.2 n).1
          · intro hc
            simpa [List.getD_cons_succ] using (ih.2 n).2 (by simpa [List.getD_cons_succ] using hc)

/-- C9 (witness): a descriptor whose Name is already set is returned
unchanged. -/
theorem resolver_frame_witness :
    (ResolveResourceNamesFromManifest listerNil [specAlreadyNamed]).1.getD 0 default
      = specAlreadyNamed :=
  ((resolver_frame listerNil [specAlreadyNamed]).2 0).2 (Or.inl (by decide))

/-! ### Single-resource waiter: panic characterization (C10) -/

theorem pollLoop_ne_panicked (spec : WaitResourceSpec) :
    ∀ polls : List ReadResult, pollLoop spec polls ≠ SingleOutcome.panicked := by
  intro polls
  induction polls with
  | nil =>
    simp only [pollLoop]
    intro h
    cases h
  | cons r rest ih =>
    simp only [pollLoop]
    cases r with
    | notFound => exact ih
    | getErr e => exact ih
    | found o =>
      show (if isConditionTrue (some o) spec.ConditionType = true then SingleOutcome.success
        else pollLoop spec rest) ≠ SingleOutcome.panicked
      by_cases hc : isConditionTrue (some o) spec.ConditionType = true
      · rw [if_pos hc]
        intro h
        cases h
      · rw [if_neg hc]
        exact ih

/-- C10: waitForSingleResourceReady never panics when the descriptor's
poll interval is positive (it returns success or a timeout error), while a
non-positive poll interval together with a first immediate read that does
not already satisfy the condition reaches time.NewTicker with a
non-positive duration and panics. -/
theorem singleWait_panic_characterization :
    (∀ (spec : WaitResourceSpec) (firstRead : ReadResult) (polls : List ReadResult),
      0 < spec.PollInterval →
      waitForSingleResourceReady spec firstRead polls ≠ SingleOutcome.panicked) ∧
    (∀ (spec : WaitResourceSpec) (firstRead : ReadResult) (polls : List ReadResult),
      spec.PollInterval ≤ 0 → firstReadReady spec firstRead = false →
      waitForSingleResourceReady spec firstRead polls = SingleOutcome.panicked) := by
  constructor
  · intro spec firstRead polls hpos
    rw [waitForSingleResourceReady]
    by_cases hfr : firstReadReady spec firstRead = true
    · rw [if_pos hfr]
      intro h
      cases h
    · rw [if_neg hfr, if_neg (by omega)]
      exact pollLoop_ne_panicked spec polls
  · intro spec firstRead polls hle hfr
    rw [waitForSingleResourceReady, if_neg (by simp [hfr]), if_pos hle]

/-- C10 (witness): with poll interval 10 and a not-found first read the
waiter returns a value; with poll interval 0 it panics. -/
theorem singleWait_panic_witness :
    waitForSingleResourceReady specNeedsResolve ReadResult.notFound [] ≠
        SingleOutcome.panicked ∧
      waitForSingleResourceReady specPoll0 ReadResult.notFound [] =
        SingleOutcome.panicked :=
  ⟨singleWait_panic_characterization.1 specNeedsResolve .notFound [] (by decide),
    singleWait_panic_characterization.2 specPoll0 .notFound [] (by decide) rfl⟩

end SkyCluster
